import Mathlib

/-!
Verification development for the serum-crank crank driver (src/lib.rs).

The Rust source is shallowly embedded: pure functions over byte/word
sequences become Lean functions over `List Nat`, the stateful control
loop becomes an explicit iteration step on a `LoopState`, and fallible
Rust code returns `RustOutcome`.  A Rust `panic!` (out-of-bounds slice,
integer division by zero) is modelled by the distinguished outcome
`RustOutcome.panicked`; a Rust `Err` propagated with `?` is modelled by
`RustOutcome.error`.
-/

set_option maxRecDepth 10000

/-- Error values produced by the crank (in the source these are `anyhow`
errors built with `format_err!`; we name each production site). -/
inductive CrankError where
  /-- transport-level failure returned by an `RpcClient` call -/
  | transport : Nat → CrankError
  /-- "dex account length {} is too small to contain valid padding" -/
  | accountTooSmall : CrankError
  /-- "dex account head padding mismatch" -/
  | headPaddingMismatch : CrankError
  /-- "dex account tail padding mismatch" -/
  | tailPaddingMismatch : CrankError
  /-- the inner region is not a whole number of 64-bit words, so both the
  borrowed transmute and the owned-copy fallback fail -/
  | innerNotWords : CrankError
  /-- `transmute_many::<Event, SingleManyGuard>` rejected the event region
  (fewer bytes than one `Event`) -/
  | eventDecode : CrankError
  /-- "Failed to retrieve account": RPC returned `null` for the account -/
  | missingAccount : CrankError
  /-- `read_keypair_file` failed inside the dispatch loop -/
  | keypairRead : CrankError
  deriving DecidableEq

/-- Result of running a piece of Rust code: it can panic (slice out of
bounds, division by zero), return an error value (which `?` propagates to
the caller), or succeed. -/
inductive RustOutcome (α : Type) where
  | panicked : RustOutcome α
  | error : CrankError → RustOutcome α
  | ok : α → RustOutcome α
  deriving DecidableEq

/-- Little-endian byte decomposition of a machine integer: `leBytes k w`
is the `k` low-order bytes of `w`, least significant first. -/
def leBytes : Nat → Nat → List Nat
  | 0, _ => []
  | k + 1, w => (w % 256) :: leBytes k (w / 256)

/-- Value of a little-endian byte sequence. -/
def leVal : List Nat → Nat
  | [] => 0
  | b :: bs => b + 256 * leVal bs

/-- Reinterpret a byte sequence as little-endian 64-bit words, eight bytes
per word (the view produced by `transmute_many_pedantic::<u64>`, or by its
owned-copy fallback; callers cannot observe which branch was taken). -/
def bytesToWords : List Nat → List Nat
  | b0 :: b1 :: b2 :: b3 :: b4 :: b5 :: b6 :: b7 :: rest =>
      leVal [b0, b1, b2, b3, b4, b5, b6, b7] :: bytesToWords rest
  | _ => []

/-- Serialize 64-bit words back to little-endian bytes (used to build
concrete test inputs). -/
def wordsToBytes (ws : List Nat) : List Nat :=
  (ws.map (leBytes 8)).flatten

/-- `serum_dex::state::ACCOUNT_HEAD_PADDING`, the fixed head framing
literal `b"serum"` supplied by the exchange library. -/
def ACCOUNT_HEAD_PADDING : List Nat := [115, 101, 114, 117, 109]

/-- `serum_dex::state::ACCOUNT_TAIL_PADDING`, the fixed tail framing
literal `b"padding"` supplied by the exchange library. -/
def ACCOUNT_TAIL_PADDING : List Nat := [112, 97, 100, 100, 105, 110, 103]

/-- Embedding of `remove_dex_account_padding` (src/lib.rs lines 170-196).
Note the source takes the slice `&data[..ACCOUNT_HEAD_PADDING.len()]`
BEFORE the too-short length check, so a byte sequence shorter than the
head padding makes that slice panic. -/
def remove_dex_account_padding (data : List Nat) : RustOutcome (List Nat) :=
  if data.length < ACCOUNT_HEAD_PADDING.length then .panicked
  else
    let headBytes := data.take ACCOUNT_HEAD_PADDING.length
    if data.length < ACCOUNT_HEAD_PADDING.length + ACCOUNT_TAIL_PADDING.length then
      .error .accountTooSmall
    else if headBytes ≠ ACCOUNT_HEAD_PADDING then .error .headPaddingMismatch
    else
      let tailBytes := data.drop (data.length - ACCOUNT_TAIL_PADDING.length)
      if tailBytes ≠ ACCOUNT_TAIL_PADDING then .error .tailPaddingMismatch
      else
        let inner := (data.drop ACCOUNT_HEAD_PADDING.length).take
          (data.length - ACCOUNT_TAIL_PADDING.length - ACCOUNT_HEAD_PADDING.length)
        if inner.length = 0 ∨ inner.length % 8 ≠ 0 then .error .innerNotWords
        else .ok (bytesToWords inner)

/-- The `owner` field of a dex event: a user's open-orders account address
stored as four 64-bit words (`[u64; 4]`), compared with the array's
lexicographic `Ord` when collected into a `BTreeSet`. -/
structure Owner where
  w0 : Nat
  w1 : Nat
  w2 : Nat
  w3 : Nat
  deriving DecidableEq

instance : Inhabited Owner := ⟨⟨0, 0, 0, 0⟩⟩

/-- `serum_dex::state::Event`, the fixed-size (88-byte, eleven words)
match-engine event record the queue stores.  The crank only consumes
`owner`. -/
structure Event where
  event_flags : Nat
  owner_slot : Nat
  fee_tier : Nat
  native_qty_released : Nat
  native_qty_paid : Nat
  native_fee_or_rebate : Nat
  order_id : Nat
  owner : Owner
  client_order_id : Nat
  deriving DecidableEq

instance : Inhabited Event := ⟨⟨0, 0, 0, 0, 0, 0, 0, default, 0⟩⟩

/-- Bit-exact reinterpretation of eleven 64-bit words as one `Event`
(layout of `serum_dex::state::Event`: one word of flag/slot/fee-tier bytes
and padding, three quantity words, a two-word `u128` order id, the
four-word owner, and the client order id). -/
def decodeEvent (w0 w1 w2 w3 w4 w5 w6 w7 w8 w9 w10 : Nat) : Event where
  event_flags := w0 % 2 ^ 8
  owner_slot := w0 / 2 ^ 8 % 2 ^ 8
  fee_tier := w0 / 2 ^ 16 % 2 ^ 8
  native_qty_released := w1 % 2 ^ 64
  native_qty_paid := w2 % 2 ^ 64
  native_fee_or_rebate := w3 % 2 ^ 64
  order_id := w4 % 2 ^ 64 + 2 ^ 64 * (w5 % 2 ^ 64)
  owner := ⟨w6 % 2 ^ 64, w7 % 2 ^ 64, w8 % 2 ^ 64, w9 % 2 ^ 64⟩
  client_order_id := w10 % 2 ^ 64

/-- Reinterpretation of the event region as an array of `Event`
(`transmute_many::<Event, SingleManyGuard>`): as many whole records as
fit, any trailing remainder ignored. -/
def decodeEvents : List Nat → List Event
  | w0 :: w1 :: w2 :: w3 :: w4 :: w5 :: w6 :: w7 :: w8 :: w9 :: w10 :: rest =>
      decodeEvent w0 w1 w2 w3 w4 w5 w6 w7 w8 w9 w10 :: decodeEvents rest
  | _ => []

/-- `serum_dex::state::EventQueueHeader`: four 64-bit words.  `head` is
the index of the oldest live event and `count` the number of live
events. -/
structure EventQueueHeader where
  account_flags : Nat
  head : Nat
  count : Nat
  seq_num : Nat
  deriving DecidableEq

instance : Inhabited EventQueueHeader := ⟨⟨0, 0, 0, 0⟩⟩

/-- Bit-exact reinterpretation of the four leading words as the queue
header (`transmute_one_pedantic::<EventQueueHeader>`). -/
def decodeHeader (ws : List Nat) : EventQueueHeader where
  account_flags := ws.getD 0 0 % 2 ^ 64
  head := ws.getD 1 0 % 2 ^ 64
  count := ws.getD 2 0 % 2 ^ 64
  seq_num := ws.getD 3 0 % 2 ^ 64

/-- Embedding of `parse_event_queue` (src/lib.rs lines 248-258).  The two
Rust `split_at` calls panic when the split index exceeds the length, and
the final `&tail_seg[..tail_len]` slice panics when `tail_len` exceeds the
physical prefix; each such panic is modelled explicitly.  The header
occupies `size_of::<EventQueueHeader>() >> 3 = 4` words and each event
eleven words. -/
def parse_event_queue (data_words : List Nat) :
    RustOutcome (EventQueueHeader × List Event × List Event) :=
  if data_words.length < 4 then .panicked
  else
    let header := decodeHeader (data_words.take 4)
    let event_words := data_words.drop 4
    if event_words.length < 11 then .error .eventDecode
    else
      let events := decodeEvents event_words
      if events.length < header.head then .panicked
      else
        let tail_seg := events.take header.head
        let head_seg := events.drop header.head
        let head_len := min head_seg.length header.count
        let tail_len := header.count - head_len
        if tail_seg.length < tail_len then .panicked
        else .ok (header, head_seg.take head_len, tail_seg.take tail_len)

/-- The decoded event array of a queue word sequence. -/
def eqEvents (w : List Nat) : List Event :=
  decodeEvents (w.drop 4)

/-- Queue capacity: the number of whole event records in the region after
the header. -/
def eqCapacity (w : List Nat) : Nat :=
  (eqEvents w).length

/-- The live events of a circular event buffer in insertion order: the
records at indices `head, head+1, …, head+count-1` taken modulo the
capacity. -/
def liveEvents (events : List Event) (head count : Nat) : List Event :=
  (List.range count).map (fun i => events.getD ((head + i) % events.length) default)

/-- Length of `seg0` in a successful parse (projection used to state
concrete scenarios). -/
def segZeroLen (r : RustOutcome (EventQueueHeader × List Event × List Event)) : Option Nat :=
  match r with
  | .ok (_, s0, _) => some s0.length
  | _ => none

/-- Length of `seg1` in a successful parse. -/
def segOneLen (r : RustOutcome (EventQueueHeader × List Event × List Event)) : Option Nat :=
  match r with
  | .ok (_, _, s1) => some s1.length
  | _ => none

/-- Lexicographic strict order on `[u64; 4]`, the `Ord` instance the
source's `BTreeSet<[u64; 4]>` sorts by. -/
def ownerLtP (a b : Owner) : Prop :=
  a.w0 < b.w0 ∨ (a.w0 = b.w0 ∧ (a.w1 < b.w1 ∨ (a.w1 = b.w1 ∧
    (a.w2 < b.w2 ∨ (a.w2 = b.w2 ∧ a.w3 < b.w3)))))

instance (a b : Owner) : Decidable (ownerLtP a b) := by
  unfold ownerLtP; infer_instance

/-- Ordered-set insertion: the effect of `BTreeSet::insert` on the sorted
element sequence (already-present keys are not duplicated). -/
def btreeInsert (x : Owner) : List Owner → List Owner
  | [] => [x]
  | y :: ys =>
      if ownerLtP x y then x :: y :: ys
      else if ownerLtP y x then y :: btreeInsert x ys
      else y :: ys

/-- The source's owner-collection loop (src/lib.rs lines 356-362): insert
each event's owner into the set, breaking as soon as the set size has
reached `num_accounts`.  The insertion happens BEFORE the size check. -/
def collectOwnersGo (num_accounts : Nat) : List Owner → List Owner → List Owner
  | [], s => s
  | o :: rest, s =>
      let s2 := btreeInsert o s
      if num_accounts ≤ s2.length then s2 else collectOwnersGo num_accounts rest s2

/-- `used_accounts` as collected from the owners of `seg0 ++ seg1`
(iteration starts from the empty set); the resulting list is the
`BTreeSet` iteration order, i.e. sorted. -/
def collectOwners (num_accounts : Nat) (owners : List Owner) : List Owner :=
  collectOwnersGo num_accounts owners []

/-- `solana_sdk::instruction::AccountMeta`; `AccountMeta::new(pk, false)`
produces a writable non-signer entry. -/
structure AccountMeta where
  pubkey : List Nat
  is_signer : Bool
  is_writable : Bool
  deriving DecidableEq

/-- `Pubkey::new(transmute_to_bytes(&owner))`: the four owner words
serialized to the 32-byte little-endian address. -/
def ownerPubkeyBytes (o : Owner) : List Nat :=
  leBytes 8 o.w0 ++ leBytes 8 o.w1 ++ leBytes 8 o.w2 ++ leBytes 8 o.w3

/-- The writable non-signer account-meta entry pushed for one user
open-orders account. -/
def mkUserMeta (o : Owner) : AccountMeta :=
  ⟨ownerPubkeyBytes o, false, true⟩

/-- All fields a loop iteration reads from configuration and resolved
market keys: the five numeric settings of `consume_events_loop` plus the
four fixed addresses appended to every account-meta list. -/
structure LoopConfig where
  num_workers : Nat
  events_per_worker : Nat
  num_accounts : Nat
  max_q_length : Nat
  max_wait_for_events_delay : Nat
  market : List Nat
  event_q : List Nat
  coin_wallet : List Nat
  pc_wallet : List Nat
  deriving DecidableEq

/-- The dispatched account-meta list (src/lib.rs lines 380-394): one
writable entry per collected owner, then market, event queue, coin wallet
and pc wallet. -/
def consumeEventsAccountMetas (cfg : LoopConfig) (orders : List Owner) : List AccountMeta :=
  orders.map mkUserMeta ++
    [⟨cfg.market, false, true⟩, ⟨cfg.event_q, false, true⟩,
     ⟨cfg.coin_wallet, false, true⟩, ⟨cfg.pc_wallet, false, true⟩]

/-- A well-formed owner: all four words are 64-bit values, as is the case
for every owner decoded from account bytes. -/
def OwnerWF (o : Owner) : Prop :=
  o.w0 < 2 ^ 64 ∧ o.w1 < 2 ^ 64 ∧ o.w2 < 2 ^ 64 ∧ o.w3 < 2 ^ 64

instance (o : Owner) : Decidable (OwnerWF o) := by
  unfold OwnerWF; infer_instance

/-- The worker-count formula at src/lib.rs line 402 (the upper bound of
the dispatch `for` range).  In Rust the division panics when
`events_per_worker = 0`; the caller checks for that case before invoking
this formula. -/
def workerCount (num_workers events_per_worker event_q_len : Nat) : Nat :=
  min num_workers (2 * event_q_len / events_per_worker + 1)

/-- `threadpool::ThreadPool::new(num_workers)` (src/lib.rs line 293): the
threadpool crate asserts a positive pool size and panics on zero, so
`consume_events_loop` never reaches its loop with `num_workers = 0`. -/
def threadPoolNew (n : Nat) : RustOutcome Unit :=
  if n = 0 then .panicked else .ok ()

/-- Mutable state carried across loop iterations: the shared slot
watermark (`max_slot_height_mutex`, initialised to 0) and
`last_cranked_at` (a wall-clock instant, modelled in whole seconds). -/
structure LoopState where
  watermark : Nat
  last_cranked_at : Nat
  deriving DecidableEq

/-- A successful `get_account_with_commitment` response: the context slot
and the (possibly null) account data bytes. -/
structure AccountFetchOk where
  slot : Nat
  value : Option (List Nat)
  deriving DecidableEq

/-- Everything the environment feeds one loop iteration: the two RPC
responses (a transport failure is `.error`), the current wall-clock second,
and per-thread results of the keypair reads and of the submitted worker
tasks. -/
structure IterInput where
  eventQFetch : RustOutcome AccountFetchOk
  reqQFetch : RustOutcome AccountFetchOk
  now : Nat
  keypairOk : Nat → Bool
  workerSucceeds : Nat → Bool

/-- Observable data of a completed dispatch: the queue length it saw, the
collected owner set, the account-meta list cloned to every worker, and the
number of worker tasks submitted. -/
structure DispatchInfo where
  eventQLen : Nat
  ordersAccounts : List Owner
  accountMetas : List AccountMeta
  workerCount : Nat
  deriving DecidableEq

/-- Outcome of one loop iteration.  `failed e` means a `?` inside the loop
body propagated `e` out of `consume_events_loop`, aborting the loop;
`panicked` means the iteration hit a Rust panic; the three `gated…`
outcomes are the `continue` branches; `dispatched` is the dispatch arm
completing (its workers may individually have failed). -/
inductive IterOutcome where
  | failed : CrankError → IterOutcome
  | panicked : IterOutcome
  | gatedStale : IterOutcome
  | gatedEmpty : IterOutcome
  | gatedThrottle : IterOutcome
  | dispatched : DispatchInfo → IterOutcome
  deriving DecidableEq

/-- Whether the iteration completed the dispatch arm. -/
def IterOutcome.isDispatched : IterOutcome → Bool
  | .dispatched _ => true
  | _ => false

/-- The worker count of a dispatch outcome (0 otherwise). -/
def IterOutcome.workerCountD : IterOutcome → Nat
  | .dispatched i => i.workerCount
  | _ => 0

/-- The observed event-queue length of a dispatch outcome (0 otherwise). -/
def IterOutcome.eventQLenD : IterOutcome → Nat
  | .dispatched i => i.eventQLen
  | _ => 0

/-- The user-account part of the dispatched metas (everything before the
four fixed market entries). -/
def IterOutcome.userMetasD : IterOutcome → List AccountMeta
  | .dispatched i => i.accountMetas.take i.ordersAccounts.length
  | _ => []

/-- The tail of one loop iteration after both queues were fetched and
decoded successfully (src/lib.rs lines 336-429): the empty gate, the
throttle gate, and the dispatch arm.  In the dispatch arm the `for` range
bound divides by `events_per_worker` (a Rust panic when zero); each
iteration of the range then re-reads the payer keypair with `?` (a failure
aborts the loop mid-dispatch); after `pool.join()` the watermark carries
any successful worker's `max`-update and `last_cranked_at` is reset. -/
def dispatchStep (cfg : LoopConfig) (st : LoopState) (inp : IterInput) (slot : Nat)
    (seg0 seg1 : List Event) : IterOutcome × LoopState :=
  let event_q_len := seg0.length + seg1.length
  if event_q_len = 0 then (.gatedEmpty, st)
  else if inp.now - st.last_cranked_at < cfg.max_wait_for_events_delay ∧
      event_q_len < cfg.max_q_length then
    (.gatedThrottle, st)
  else
    let orders := collectOwners cfg.num_accounts ((seg0 ++ seg1).map Event.owner)
    let metas := consumeEventsAccountMetas cfg orders
    if cfg.events_per_worker = 0 then (.panicked, st)
    else
      let wc := workerCount cfg.num_workers cfg.events_per_worker event_q_len
      match (List.range wc).find? (fun i => ! inp.keypairOk i) with
      | some _ => (.failed .keypairRead, st)
      | none =>
          let newWatermark :=
            if (List.range wc).any (fun i => inp.workerSucceeds i) then
              max slot st.watermark
            else st.watermark
          (.dispatched ⟨event_q_len, orders, metas, wc⟩,
           ⟨newWatermark, inp.now⟩)

/-- One iteration of the `loop` in `consume_events_loop` (src/lib.rs lines
299-430).  Every `?` in the body is modelled by `.failed`, which aborts
the loop: the event-queue fetch, the null-value checks on both accounts,
the request-queue fetch, and the padding/parse steps of both queues.  The
stale-slot gate runs before the null-value check, exactly as in the
source. -/
def consume_events_loop_iteration (cfg : LoopConfig) (st : LoopState) (inp : IterInput) :
    IterOutcome × LoopState :=
  match inp.eventQFetch with
  | .panicked => (.panicked, st)
  | .error e => (.failed e, st)
  | .ok fetch =>
    if fetch.slot ≤ st.watermark then (.gatedStale, st)
    else
      match fetch.value with
      | none => (.failed .missingAccount, st)
      | some event_q_data =>
        match inp.reqQFetch with
        | .panicked => (.panicked, st)
        | .error e => (.failed e, st)
        | .ok rfetch =>
          match rfetch.value with
          | none => (.failed .missingAccount, st)
          | some req_q_data =>
            match remove_dex_account_padding event_q_data with
            | .panicked => (.panicked, st)
            | .error e => (.failed e, st)
            | .ok inner =>
              match parse_event_queue inner with
              | .panicked => (.panicked, st)
              | .error e => (.failed e, st)
              | .ok (_, seg0, seg1) =>
                match remove_dex_account_padding req_q_data with
                | .panicked => (.panicked, st)
                | .error e => (.failed e, st)
                | .ok req_inner =>
                  match parse_event_queue req_inner with
                  | .panicked => (.panicked, st)
                  | .error e => (.failed e, st)
                  | .ok _ => dispatchStep cfg st inp fetch.slot seg0 seg1

/-- The CLI options of the `consume-events` subcommand (src/lib.rs lines
79-102): the three size settings that default are `Option`s. -/
structure ConsumeEventsOpts where
  num_workers : Nat
  events_per_worker : Nat
  num_accounts : Option Nat
  max_q_length : Option Nat
  max_wait_for_events_delay : Option Nat
  market : List Nat
  coin_wallet : List Nat
  pc_wallet : List Nat
  deriving DecidableEq

/-- Argument processing of `start` for `ConsumeEvents` (src/lib.rs lines
109-140): after logger initialisation the loop is called with
`unwrap_or` defaults 32 / 1 / 60 for the optional settings.  No field is
validated; in particular `events_per_worker` is forwarded unchanged.  The
event-queue address is resolved from the market account inside
`consume_events_loop` and supplied here as a parameter. -/
def startLoopConfig (o : ConsumeEventsOpts) (event_q : List Nat) : LoopConfig where
  num_workers := o.num_workers
  events_per_worker := o.events_per_worker
  num_accounts := o.num_accounts.getD 32
  max_q_length := o.max_q_length.getD 1
  max_wait_for_events_delay := o.max_wait_for_events_delay.getD 60
  market := o.market
  event_q := event_q
  coin_wallet := o.coin_wallet
  pc_wallet := o.pc_wallet

/-- Watermark update performed by `consume_events_wrapper` (src/lib.rs
lines 454-468) when one worker completes: on success
`*max_slot_height = max(slot, *max_slot_height)`; on failure the error is
logged and the watermark left unchanged. -/
def consume_events_wrapper_update (success : Bool) (slot watermark : Nat) : Nat :=
  if success then max slot watermark else watermark

/-- The watermark after a finite sequence of worker completions, each a
`(success, observed slot)` pair, starting from `w0`. -/
def runWorkerCompletions (w0 : Nat) : List (Bool × Nat) → Nat
  | [] => w0
  | c :: cs => runWorkerCompletions (consume_events_wrapper_update c.1 c.2 w0) cs

/-- The maximum observed slot among the successful completions (0 if none
succeeded). -/
def maxSuccessSlot (cs : List (Bool × Nat)) : Nat :=
  (cs.filter (·.1)).foldl (fun a c => max a c.2) 0

/-- Raw account bytes of an event queue with the given header fields and
`cap` zeroed event records (head/tail padding included), used as concrete
test input. -/
def mkQueueBytes (head count cap : Nat) : List Nat :=
  ACCOUNT_HEAD_PADDING ++
    wordsToBytes ([0, head, count, 0] ++ List.replicate (cap * 11) 0) ++
    ACCOUNT_TAIL_PADDING

/-! ### Supporting lemmas: little-endian encoding -/

theorem leBytes_length (k w : Nat) : (leBytes k w).length = k := by
  induction k generalizing w with
  | zero => rfl
  | succ k ih => simp [leBytes, ih]

theorem leVal_leBytes (k w : Nat) : leVal (leBytes k w) = w % 256 ^ k := by
  induction k generalizing w with
  | zero => simp [leBytes, leVal, Nat.mod_one]
  | succ k ih =>
      have hpow : (256 : Nat) ^ (k + 1) = 256 * 256 ^ k := by ring
      rw [leBytes, leVal, ih, hpow, Nat.mod_mul]

theorem leBytes_inj {a b : Nat} (ha : a < 2 ^ 64) (hb : b < 2 ^ 64)
    (h : leBytes 8 a = leBytes 8 b) : a = b := by
  have h256 : (256 : Nat) ^ 8 = 2 ^ 64 := by norm_num
  have hva := leVal_leBytes 8 a
  have hvb := leVal_leBytes 8 b
  rw [h] at hva
  rw [hvb] at hva
  rw [h256] at hva
  rw [Nat.mod_eq_of_lt hb, Nat.mod_eq_of_lt ha] at hva
  omega

theorem ownerPubkeyBytes_inj {a b : Owner} (ha : OwnerWF a) (hb : OwnerWF b)
    (h : ownerPubkeyBytes a = ownerPubkeyBytes b) : a = b := by
  obtain ⟨ha0, ha1, ha2, ha3⟩ := ha
  obtain ⟨hb0, hb1, hb2, hb3⟩ := hb
  unfold ownerPubkeyBytes at h
  obtain ⟨h012, h3⟩ := List.append_inj h (by simp [leBytes_length])
  obtain ⟨h01, h2⟩ := List.append_inj h012 (by simp [leBytes_length])
  obtain ⟨h0, h1⟩ := List.append_inj h01 (by simp [leBytes_length])
  obtain ⟨aw0, aw1, aw2, aw3⟩ := a
  obtain ⟨bw0, bw1, bw2, bw3⟩ := b
  simp only at h0 h1 h2 h3 ha0 ha1 ha2 ha3 hb0 hb1 hb2 hb3
  have := leBytes_inj ha0 hb0 h0
  have := leBytes_inj ha1 hb1 h1
  have := leBytes_inj ha2 hb2 h2
  have := leBytes_inj ha3 hb3 h3
  simp_all

/-! ### Supporting lemmas: the owner order and `BTreeSet` insertion -/

theorem ownerLtP_irrefl (a : Owner) : ¬ ownerLtP a a := by
  unfold ownerLtP; omega

theorem ownerLtP_trans {a b c : Owner} (h1 : ownerLtP a b) (h2 : ownerLtP b c) :
    ownerLtP a c := by
  unfold ownerLtP at h1 h2 ⊢; omega

theorem ownerLtP_ne {a b : Owner} (h : ownerLtP a b) : a ≠ b := by
  intro he
  subst he
  exact ownerLtP_irrefl a h

theorem btreeInsert_mem {y x : Owner} {s : List Owner} (h : y ∈ btreeInsert x s) :
    y = x ∨ y ∈ s := by
  induction s with
  | nil => simpa [btreeInsert] using h
  | cons z zs ih =>
      unfold btreeInsert at h
      split_ifs at h with h1 h2
      · simpa using h
      · rcases List.mem_cons.mp h with h | h
        · exact Or.inr (List.mem_cons.mpr (Or.inl h))
        · rcases ih h with h | h
          · exact Or.inl h
          · exact Or.inr (List.mem_cons.mpr (Or.inr h))
      · exact Or.inr h

theorem btreeInsert_length (x : Owner) (s : List Owner) :
    (btreeInsert x s).length ≤ s.length + 1 := by
  induction s with
  | nil => simp [btreeInsert]
  | cons z zs ih =>
      unfold btreeInsert
      split_ifs <;> simp only [List.length_cons] <;> omega

theorem btreeInsert_pairwise {x : Owner} {s : List Owner}
    (hs : s.Pairwise ownerLtP) : (btreeInsert x s).Pairwise ownerLtP := by
  induction s with
  | nil => simp [btreeInsert]
  | cons z zs ih =>
      rw [List.pairwise_cons] at hs
      obtain ⟨hz, hzs⟩ := hs
      unfold btreeInsert
      split_ifs with h1 h2
      · refine List.pairwise_cons.mpr ⟨?_, List.pairwise_cons.mpr ⟨hz, hzs⟩⟩
        intro y hy
        rcases List.mem_cons.mp hy with h | h
        · subst h; exact h1
        · exact ownerLtP_trans h1 (hz y h)
      · refine List.pairwise_cons.mpr ⟨?_, ih hzs⟩
        intro y hy
        rcases btreeInsert_mem hy with h | h
        · subst h; exact h2
        · exact hz y h
      · exact List.pairwise_cons.mpr ⟨hz, hzs⟩

theorem pairwise_ownerLtP_nodup {s : List Owner} (h : s.Pairwise ownerLtP) :
    s.Nodup :=
  h.imp (fun hab => ownerLtP_ne hab)

/-! ### Supporting lemmas: the owner-collection loop -/

theorem collectOwnersGo_mem (na : Nat) (owners : List Owner) :
    ∀ (s : List Owner) (y : Owner), y ∈ collectOwnersGo na owners s → y ∈ s ∨ y ∈ owners := by
  induction owners with
  | nil => intro s y h; exact Or.inl (by simpa [collectOwnersGo] using h)
  | cons o rest ih =>
      intro s y h
      unfold collectOwnersGo at h
      simp only at h
      split_ifs at h with hc
      · rcases btreeInsert_mem h with h | h
        · exact Or.inr (List.mem_cons.mpr (Or.inl h))
        · exact Or.inl h
      · rcases ih (btreeInsert o s) y h with h | h
        · rcases btreeInsert_mem h with h | h
          · exact Or.inr (List.mem_cons.mpr (Or.inl h))
          · exact Or.inl h
        · exact Or.inr (List.mem_cons.mpr (Or.inr h))

theorem collectOwnersGo_length (na : Nat) (owners : List Owner) :
    ∀ s : List Owner, (collectOwnersGo na owners s).length ≤ max na (s.length + 1) := by
  induction owners with
  | nil => intro s; simp only [collectOwnersGo]; omega
  | cons o rest ih =>
      intro s
      unfold collectOwnersGo
      simp only
      have hins := btreeInsert_length o s
      split_ifs with hc
      · omega
      · have := ih (btreeInsert o s)
        omega

theorem collectOwnersGo_pairwise (na : Nat) (owners : List Owner) :
    ∀ s : List Owner, s.Pairwise ownerLtP →
      (collectOwnersGo na owners s).Pairwise ownerLtP := by
  induction owners with
  | nil => intro s hs; simpa [collectOwnersGo] using hs
  | cons o rest ih =>
      intro s hs
      unfold collectOwnersGo
      simp only
      split_ifs with hc
      · exact btreeInsert_pairwise hs
      · exact ih (btreeInsert o s) (btreeInsert_pairwise hs)

theorem collectOwners_mem {na : Nat} {owners : List Owner} {y : Owner}
    (h : y ∈ collectOwners na owners) : y ∈ owners := by
  rcases collectOwnersGo_mem na owners [] y h with h | h
  · simp at h
  · exact h

theorem collectOwners_length (na : Nat) (owners : List Owner) :
    (collectOwners na owners).length ≤ max na 1 :=
  collectOwnersGo_length na owners []

theorem collectOwners_nodup (na : Nat) (owners : List Owner) :
    (collectOwners na owners).Nodup :=
  pairwise_ownerLtP_nodup (collectOwnersGo_pairwise na owners [] (by simp))

/-! ### Supporting lemmas: the circular event buffer -/

theorem liveEvents_eq_rotate_take (events : List Event) (hd cnt : Nat)
    (hhd : hd ≤ events.length) (hcnt : cnt ≤ events.length) :
    liveEvents events hd cnt = (events.drop hd ++ events.take hd).take cnt := by
  apply List.ext_getElem
  · simp [liveEvents]
    omega
  · intro i h1 h2
    have hicnt : i < cnt := by simpa [liveEvents] using h1
    have hlenpos : 0 < events.length := by omega
    simp only [liveEvents, List.getElem_map, List.getElem_range]
    rw [List.getElem_take]
    by_cases hcase : i < events.length - hd
    · have hidx : hd + i < events.length := by omega
      have hmod : (hd + i) % events.length = hd + i := Nat.mod_eq_of_lt hidx
      rw [hmod, List.getD_eq_getElem?_getD, List.getElem?_eq_getElem hidx]
      rw [List.getElem_append_left (by simp; omega)]
      simp [List.getElem_drop]
    · have hge : events.length ≤ hd + i := by omega
      have hlt2 : hd + i - events.length < events.length := by omega
      have hmod : (hd + i) % events.length = hd + i - events.length := by
        rw [Nat.mod_eq_sub_mod hge, Nat.mod_eq_of_lt hlt2]
      rw [hmod, List.getD_eq_getElem?_getD, List.getElem?_eq_getElem hlt2]
      rw [List.getElem_append_right (by simp; omega)]
      rw [List.getElem_take]
      have hab : hd + i - events.length = i - (events.drop hd).length := by
        simp
        omega
      have hopt : events[hd + i - events.length]? = events[i - (events.drop hd).length]? := by
        rw [hab]
      rw [List.getElem?_eq_getElem hlt2] at hopt
      rw [List.getElem?_eq_getElem (by simp; omega)] at hopt
      exact Option.some.inj hopt

theorem parse_event_queue_ok (w : List Nat)
    (hlen : 15 ≤ w.length)
    (hhd : (decodeHeader (w.take 4)).head ≤ eqCapacity w)
    (hcnt : (decodeHeader (w.take 4)).count ≤ eqCapacity w) :
    parse_event_queue w =
      .ok (decodeHeader (w.take 4),
        ((eqEvents w).drop (decodeHeader (w.take 4)).head).take
          (min ((eqEvents w).drop (decodeHeader (w.take 4)).head).length
            (decodeHeader (w.take 4)).count),
        ((eqEvents w).take (decodeHeader (w.take 4)).head).take
          ((decodeHeader (w.take 4)).count -
            min ((eqEvents w).drop (decodeHeader (w.take 4)).head).length
              (decodeHeader (w.take 4)).count)) := by
  unfold eqCapacity eqEvents at *
  simp only [parse_event_queue]
  rw [if_neg (by omega)]
  rw [if_neg (by simp [List.length_drop]; omega)]
  rw [if_neg (by omega)]
  rw [if_neg (by simp [List.length_take, List.length_drop]; omega)]

/-! ### Supporting lemmas: watermark updates -/

theorem runWorkerCompletions_foldl (cs : List (Bool × Nat)) :
    ∀ w0 : Nat, runWorkerCompletions w0 cs =
      (cs.filter (·.1)).foldl (fun a c => max a c.2) w0 := by
  induction cs with
  | nil => intro w0; rfl
  | cons c cs ih =>
      intro w0
      obtain ⟨s, sl⟩ := c
      cases s with
      | false =>
          simp only [runWorkerCompletions, consume_events_wrapper_update,
            List.filter_cons, ih]
          rfl
      | true =>
          simp only [runWorkerCompletions, consume_events_wrapper_update,
            List.filter_cons, ih]
          simp [Nat.max_comm]

/-! ### Supporting lemmas: the dispatch arm -/

theorem dispatchStep_throttle_iff (cfg : LoopConfig) (st : LoopState) (inp : IterInput)
    (slot : Nat) (seg0 seg1 : List Event) (hne : 0 < seg0.length + seg1.length) :
    (dispatchStep cfg st inp slot seg0 seg1).1 = .gatedThrottle ↔
      (inp.now - st.last_cranked_at < cfg.max_wait_for_events_delay ∧
        seg0.length + seg1.length < cfg.max_q_length) := by
  simp only [dispatchStep]
  rw [if_neg (by omega)]
  by_cases hth : inp.now - st.last_cranked_at < cfg.max_wait_for_events_delay ∧
      seg0.length + seg1.length < cfg.max_q_length
  · rw [if_pos hth]
    simpa using hth
  · rw [if_neg hth]
    simp only [iff_false_intro hth, iff_false]
    split_ifs <;> (try (split <;> simp)) <;> simp

theorem dispatchStep_epw_zero (cfg : LoopConfig) (st : LoopState) (inp : IterInput)
    (slot : Nat) (seg0 seg1 : List Event) (hne : 0 < seg0.length + seg1.length)
    (hth : ¬ (inp.now - st.last_cranked_at < cfg.max_wait_for_events_delay ∧
      seg0.length + seg1.length < cfg.max_q_length))
    (hepw : cfg.events_per_worker = 0) :
    dispatchStep cfg st inp slot seg0 seg1 = (.panicked, st) := by
  simp only [dispatchStep]
  rw [if_neg (by omega), if_neg hth, if_pos hepw]

theorem dispatchStep_workers_fail (cfg : LoopConfig) (st : LoopState) (inp : IterInput)
    (slot : Nat) (seg0 seg1 : List Event) (hne : 0 < seg0.length + seg1.length)
    (hth : ¬ (inp.now - st.last_cranked_at < cfg.max_wait_for_events_delay ∧
      seg0.length + seg1.length < cfg.max_q_length))
    (hepw : cfg.events_per_worker ≠ 0)
    (hkp : ∀ i, inp.keypairOk i = true)
    (hws : ∀ i, inp.workerSucceeds i = false) :
    ∃ info : DispatchInfo,
      dispatchStep cfg st inp slot seg0 seg1 =
        (.dispatched info, ⟨st.watermark, inp.now⟩) := by
  simp only [dispatchStep]
  rw [if_neg (by omega), if_neg hth, if_neg hepw]
  have hfind : (List.range (workerCount cfg.num_workers cfg.events_per_worker
      (seg0.length + seg1.length))).find? (fun i => ! inp.keypairOk i) = none := by
    rw [List.find?_eq_none]
    intro i _
    simp [hkp i]
  rw [hfind]
  have hany : (List.range (workerCount cfg.num_workers cfg.events_per_worker
      (seg0.length + seg1.length))).any (fun i => inp.workerSucceeds i) = false := by
    rw [List.any_eq_false]
    intro i _
    simp [hws i]
  rw [hany]
  exact ⟨_, rfl⟩

theorem dispatchStep_dispatched_inv (cfg : LoopConfig) (st : LoopState) (inp : IterInput)
    (slot : Nat) (seg0 seg1 : List Event) (info : DispatchInfo) (st2 : LoopState)
    (h : dispatchStep cfg st inp slot seg0 seg1 = (.dispatched info, st2)) :
    info.eventQLen = seg0.length + seg1.length ∧
    0 < seg0.length + seg1.length ∧
    cfg.events_per_worker ≠ 0 ∧
    info.workerCount = workerCount cfg.num_workers cfg.events_per_worker info.eventQLen ∧
    info.ordersAccounts = collectOwners cfg.num_accounts ((seg0 ++ seg1).map Event.owner) ∧
    info.accountMetas = consumeEventsAccountMetas cfg info.ordersAccounts := by
  simp only [dispatchStep] at h
  split_ifs at h with h1 h2 h3
  · simp at h
  · simp at h
  · simp at h
  all_goals
    split at h
    · simp at h
    · rw [Prod.mk.injEq] at h
      obtain ⟨hinfo, _⟩ := h
      have hi := IterOutcome.dispatched.inj hinfo
      subst hi
      exact ⟨rfl, by omega, h3, rfl, rfl, rfl⟩

/-! ### Supporting lemmas: the loop iteration plumbing -/

theorem loop_reaches_dispatch (cfg : LoopConfig) (st : LoopState) (inp : IterInput)
    (slot rslot : Nat) (ebytes rbytes einner rinner : List Nat)
    (hdr rhdr : EventQueueHeader) (s0 s1 r0 r1 : List Event)
    (hfetch : inp.eventQFetch = .ok ⟨slot, some ebytes⟩)
    (hreq : inp.reqQFetch = .ok ⟨rslot, some rbytes⟩)
    (hstale : st.watermark < slot)
    (hpad : remove_dex_account_padding ebytes = .ok einner)
    (hparse : parse_event_queue einner = .ok (hdr, s0, s1))
    (hrpad : remove_dex_account_padding rbytes = .ok rinner)
    (hrparse : parse_event_queue rinner = .ok (rhdr, r0, r1)) :
    consume_events_loop_iteration cfg st inp = dispatchStep cfg st inp slot s0 s1 := by
  simp only [consume_events_loop_iteration, hfetch, hreq, hpad, hparse, hrpad, hrparse]
  rw [if_neg (by omega)]

theorem loop_dispatched_inv (cfg : LoopConfig) (st : LoopState) (inp : IterInput)
    (h : (consume_events_loop_iteration cfg st inp).1.isDispatched = true) :
    ∃ slot s0 s1, consume_events_loop_iteration cfg st inp = dispatchStep cfg st inp slot s0 s1 := by
  revert h
  unfold consume_events_loop_iteration
  repeat' split
  all_goals intro h
  all_goals
    first
      | exact ⟨_, _, _, rfl⟩
      | simp [IterOutcome.isDispatched] at h

/-! ### Concrete inputs for the end-to-end scenarios -/

/-- Scenario S5: a 16-slot queue (inner words only) with `head = 14`,
`count = 5`: four header words then 16 zeroed event records. -/
def s5Words : List Nat := [0, 14, 5, 0] ++ List.replicate (16 * 11) 0

/-- Account bytes of a 1-slot queue holding one live event. -/
def sampleQueueOneEvent : List Nat := mkQueueBytes 0 1 1

/-- Account bytes of a 1-slot queue holding no live events (used as the
request-queue account in the scenarios). -/
def sampleQueueEmpty : List Nat := mkQueueBytes 0 0 1

/-- Inner words of `sampleQueueOneEvent`. -/
def sampleInnerOneEvent : List Nat := [0, 0, 1, 0] ++ List.replicate 11 0

/-- Inner words of `sampleQueueEmpty`. -/
def sampleInnerEmpty : List Nat := [0, 0, 0, 0] ++ List.replicate 11 0

/-- Scenario S3 configuration with `max_q_length = 1`. -/
def cfgThrottleA : LoopConfig := ⟨1, 1, 32, 1, 60, [1], [2], [3], [4]⟩

/-- Scenario S3 configuration with `max_q_length = 2`. -/
def cfgThrottleB : LoopConfig := ⟨1, 1, 32, 2, 60, [1], [2], [3], [4]⟩

/-- Scenario S3 state: watermark 0, last crank 100 s. -/
def stSample : LoopState := ⟨0, 100⟩

/-- Scenario S3 input: queue of one event observed at slot 7, 5 s after
the last crank, keypair reads and workers all succeeding. -/
def inpSample : IterInput :=
  ⟨.ok ⟨7, some sampleQueueOneEvent⟩, .ok ⟨7, some sampleQueueEmpty⟩, 105,
   fun _ => true, fun _ => true⟩

/-- An input whose event-queue fetch fails at the transport level. -/
def inpTransportErr : IterInput :=
  ⟨.error (.transport 0), .ok ⟨7, some sampleQueueEmpty⟩, 105,
   fun _ => true, fun _ => true⟩

/-- A `consume-events` invocation with `--events-per-worker 0`. -/
def optsEpwZero : ConsumeEventsOpts := ⟨4, 0, none, none, none, [1], [3], [4]⟩

/-- A sample event owned by `⟨1, 2, 3, 4⟩`. -/
def evA : Event := ⟨0, 0, 0, 0, 0, 0, 0, ⟨1, 2, 3, 4⟩, 0⟩

/-- A sample event owned by `⟨5, 6, 7, 8⟩`. -/
def evB : Event := ⟨0, 0, 0, 0, 0, 0, 0, ⟨5, 6, 7, 8⟩, 0⟩

/-! ### Claim theorems -/

/-- C1 counterexample: the header-only word sequence `[0, 0, 0, 0]` has
capacity 0 and its header satisfies `head = 0 ≤ capacity` and
`count = 0 ≤ capacity`, yet `parse_event_queue` does not return
`(header, seg0, seg1)`: the event transmute's `SingleManyGuard` rejects
the empty event region (fewer bytes than one `Event`) and the function
returns the event-decode error instead. -/
theorem parse_event_queue_capacity_zero_cex :
    (decodeHeader (([0, 0, 0, 0] : List Nat).take 4)).head ≤
      eqCapacity [0, 0, 0, 0] ∧
    (decodeHeader (([0, 0, 0, 0] : List Nat).take 4)).count ≤
      eqCapacity [0, 0, 0, 0] ∧
    parse_event_queue [0, 0, 0, 0] = .error .eventDecode := by
  decide

/-- C1 (amended): for every event-queue word sequence holding at least
one event record (15 or more words) whose header satisfies
`head ≤ capacity` and `count ≤ capacity`, `parse_event_queue` returns
`(header, seg0, seg1)` with `seg0 ++ seg1` equal to the `count` live
events in insertion order and `len(seg0) + len(seg1) = count`; a
header-only sequence (4 to 14 words, capacity 0) instead fails with the
event-decode error, because `SingleManyGuard` demands at least one whole
`Event`; in particular with capacity 16, `head = 14`, `count = 5` it
returns `len(seg0) = 2` and `len(seg1) = 3`. -/
theorem parse_event_queue_roundtrip :
    (∀ w : List Nat, 15 ≤ w.length →
      (decodeHeader (w.take 4)).head ≤ eqCapacity w →
      (decodeHeader (w.take 4)).count ≤ eqCapacity w →
      ∃ s0 s1 : List Event,
        parse_event_queue w = .ok (decodeHeader (w.take 4), s0, s1) ∧
        s0 ++ s1 = liveEvents (eqEvents w) (decodeHeader (w.take 4)).head
          (decodeHeader (w.take 4)).count ∧
        s0.length + s1.length = (decodeHeader (w.take 4)).count) ∧
    (∀ w : List Nat, 4 ≤ w.length → w.length < 15 →
      parse_event_queue w = .error .eventDecode) ∧
    segZeroLen (parse_event_queue s5Words) = some 2 ∧
    segOneLen (parse_event_queue s5Words) = some 3 := by
  refine ⟨?_, ?_, by decide, by decide⟩
  · intro w hlen hhd hcnt
    unfold eqCapacity at hhd hcnt
    refine ⟨_, _, parse_event_queue_ok w hlen hhd hcnt, ?_, ?_⟩
    · rw [liveEvents_eq_rotate_take (eqEvents w) _ _ hhd hcnt]
      rw [List.take_append_eq_append_take]
      congr 1
      · rw [List.take_eq_take]
        simp only [List.length_take, List.length_drop]
        omega
      · congr 1
        simp only [List.length_drop]
        omega
    · simp only [List.length_take, List.length_drop]
      omega
  · intro w h4 h15
    simp only [parse_event_queue]
    rw [if_neg (by omega), if_pos (by simp only [List.length_drop]; omega)]

/-- C1 witness: the amended round-trip theorem applied to the concrete
S5 words, and its header-only error conjunct applied to the four-word
sequence `[0, 0, 0, 0]`. -/
theorem parse_event_queue_roundtrip_witness :
    ((15 ≤ s5Words.length) ∧
     (decodeHeader (s5Words.take 4)).head ≤ eqCapacity s5Words ∧
     (decodeHeader (s5Words.take 4)).count ≤ eqCapacity s5Words ∧
     ∃ s0 s1 : List Event,
       parse_event_queue s5Words = .ok (decodeHeader (s5Words.take 4), s0, s1) ∧
       s0 ++ s1 = liveEvents (eqEvents s5Words) (decodeHeader (s5Words.take 4)).head
         (decodeHeader (s5Words.take 4)).count ∧
       s0.length + s1.length = (decodeHeader (s5Words.take 4)).count) ∧
    (4 ≤ ([0, 0, 0, 0] : List Nat).length ∧
     ([0, 0, 0, 0] : List Nat).length < 15 ∧
     parse_event_queue [0, 0, 0, 0] = .error .eventDecode) :=
  ⟨⟨by decide, by decide, by decide,
    parse_event_queue_roundtrip.1 s5Words (by decide) (by decide) (by decide)⟩,
   ⟨by decide, by decide,
    parse_event_queue_roundtrip.2.1 [0, 0, 0, 0] (by decide) (by decide)⟩⟩

/-- C6 counterexample: `parse_event_queue` panics on the empty word
sequence (the header `split_at` is out of bounds), so it is not true that
it returns a result or an error value for every input. -/
theorem parse_event_queue_panic_cex : parse_event_queue [] = .panicked := by
  decide

/-- C6 (amended): `parse_event_queue` does not panic provided the input
holds at least the four header words and the decoded header satisfies
`head ≤ capacity` and `count ≤ capacity`; outside those bounds the header
split, the split at `header.head`, or the `seg1` slicing panics. -/
theorem parse_event_queue_no_panic :
    ∀ w : List Nat, 4 ≤ w.length →
      (decodeHeader (w.take 4)).head ≤ eqCapacity w →
      (decodeHeader (w.take 4)).count ≤ eqCapacity w →
      parse_event_queue w ≠ .panicked := by
  intro w h4 hhd hcnt
  unfold eqCapacity eqEvents at hhd hcnt
  simp only [parse_event_queue]
  rw [if_neg (by omega)]
  by_cases hev : (w.drop 4).length < 11
  · rw [if_pos hev]
    simp
  · rw [if_neg hev]
    rw [if_neg (by omega)]
    rw [if_neg (by simp only [List.length_take, List.length_drop]; omega)]
    simp

/-- C6 witness: the no-panic theorem applied to the concrete S5 words. -/
theorem parse_event_queue_no_panic_witness :
    (4 ≤ s5Words.length) ∧
    (decodeHeader (s5Words.take 4)).head ≤ eqCapacity s5Words ∧
    (decodeHeader (s5Words.take 4)).count ≤ eqCapacity s5Words ∧
    parse_event_queue s5Words ≠ .panicked :=
  ⟨by decide, by decide, by decide,
   parse_event_queue_no_panic s5Words (by decide) (by decide) (by decide)⟩

/-- C7 counterexample: on a 4-byte input (shorter than the head padding)
`remove_dex_account_padding` panics on the head slice instead of
returning the too-short error. -/
theorem remove_padding_short_input_panics :
    remove_dex_account_padding (List.replicate 4 0) = .panicked := by
  decide

/-- C7 (amended): `remove_dex_account_padding` returns the too-short
error for byte sequences of length at least `len(head_pad)` but less than
`len(head_pad) + len(tail_pad)`; for inputs shorter than the head padding
itself it panics, because the head slice is taken before the length
check. -/
theorem remove_padding_too_short :
    ∀ data : List Nat,
      ACCOUNT_HEAD_PADDING.length ≤ data.length →
      data.length < ACCOUNT_HEAD_PADDING.length + ACCOUNT_TAIL_PADDING.length →
      remove_dex_account_padding data = .error .accountTooSmall := by
  intro data h5 h12
  simp only [remove_dex_account_padding]
  rw [if_neg (by omega), if_pos h12]

/-- C7 witness: the too-short theorem applied to a 6-byte input. -/
theorem remove_padding_too_short_witness :
    ACCOUNT_HEAD_PADDING.length ≤ (List.replicate 6 0).length ∧
    (List.replicate 6 0).length <
      ACCOUNT_HEAD_PADDING.length + ACCOUNT_TAIL_PADDING.length ∧
    remove_dex_account_padding (List.replicate 6 0) = .error .accountTooSmall :=
  ⟨by decide, by decide,
   remove_padding_too_short (List.replicate 6 0) (by decide) (by decide)⟩

/-- C2 counterexample: a transport failure of the event-queue fetch makes
the iteration return `.failed`, i.e. the `?` operator propagates the
error out of `consume_events_loop` and the loop aborts — it does not
continue with the next iteration. -/
theorem loop_aborts_on_transport_error_cex :
    consume_events_loop_iteration cfgThrottleA stSample inpTransportErr =
      (.failed (.transport 0), stSample) := by
  decide

/-- C2 (amended): every per-iteration error inside the control loop — an
RPC transport failure, a null account value, or a malformed-account or
malformed-queue decode failure — propagates out of `consume_events_loop`
via `?` and aborts the loop; only worker-task failures inside the pool
are caught and logged, leaving the iteration a completed dispatch with
the watermark unchanged. -/
theorem crank_loop_error_propagation :
    ∀ (cfg : LoopConfig) (st : LoopState) (inp : IterInput),
      (∀ e, inp.eventQFetch = .error e →
        consume_events_loop_iteration cfg st inp = (.failed e, st)) ∧
      (∀ slot, inp.eventQFetch = .ok ⟨slot, none⟩ → st.watermark < slot →
        consume_events_loop_iteration cfg st inp = (.failed .missingAccount, st)) ∧
      (∀ slot ebytes rslot rbytes e,
        inp.eventQFetch = .ok ⟨slot, some ebytes⟩ → st.watermark < slot →
        inp.reqQFetch = .ok ⟨rslot, some rbytes⟩ →
        remove_dex_account_padding ebytes = .error e →
        consume_events_loop_iteration cfg st inp = (.failed e, st)) ∧
      (∀ slot ebytes rslot rbytes einner e,
        inp.eventQFetch = .ok ⟨slot, some ebytes⟩ → st.watermark < slot →
        inp.reqQFetch = .ok ⟨rslot, some rbytes⟩ →
        remove_dex_account_padding ebytes = .ok einner →
        parse_event_queue einner = .error e →
        consume_events_loop_iteration cfg st inp = (.failed e, st)) ∧
      (∀ slot (s0 s1 : List Event), 0 < s0.length + s1.length →
        ¬ (inp.now - st.last_cranked_at < cfg.max_wait_for_events_delay ∧
           s0.length + s1.length < cfg.max_q_length) →
        cfg.events_per_worker ≠ 0 →
        (∀ i, inp.keypairOk i = true) →
        (∀ i, inp.workerSucceeds i = false) →
        ∃ info, dispatchStep cfg st inp slot s0 s1 =
          (.dispatched info, ⟨st.watermark, inp.now⟩)) := by
  intro cfg st inp
  refine ⟨?_, ?_, ?_, ?_, ?_⟩
  · intro e he
    simp only [consume_events_loop_iteration, he]
  · intro slot he hsl
    simp only [consume_events_loop_iteration, he]
    rw [if_neg (by omega)]
  · intro slot ebytes rslot rbytes e he hsl hr hpad
    simp only [consume_events_loop_iteration, he, hr, hpad]
    rw [if_neg (by omega)]
  · intro slot ebytes rslot rbytes einner e he hsl hr hpad hparse
    simp only [consume_events_loop_iteration, he, hr, hpad, hparse]
    rw [if_neg (by omega)]
  · intro slot s0 s1 hne hth hepw hkp hws
    exact dispatchStep_workers_fail cfg st inp slot s0 s1 hne hth hepw hkp hws

/-- C2 witness: the propagation theorem applied to the concrete
transport-failure input. -/
theorem crank_loop_error_propagation_witness :
    inpTransportErr.eventQFetch = .error (.transport 0) ∧
    consume_events_loop_iteration cfgThrottleA stSample inpTransportErr =
      (.failed (.transport 0), stSample) :=
  ⟨rfl, (crank_loop_error_propagation cfgThrottleA stSample inpTransportErr).1
    (.transport 0) rfl⟩

/-- C5: in every iteration that passes the stale-slot and empty gates
(both accounts fetched and decoded, fresh slot, non-empty queue), the
loop throttles exactly when `now - last_cranked_at <
max_wait_for_events_delay` and `event_q_len < max_q_length`, both
strict; with `event_q_len = 1`, `max_q_length = 1`, 5 s elapsed and a
60 s max wait the throttle does not apply and dispatch occurs, while
`max_q_length = 2` throttles the same iteration. -/
theorem throttle_gate_exact :
    (∀ (cfg : LoopConfig) (st : LoopState) (inp : IterInput) (slot rslot : Nat)
       (ebytes rbytes einner rinner : List Nat) (hdr rhdr : EventQueueHeader)
       (s0 s1 r0 r1 : List Event),
      inp.eventQFetch = .ok ⟨slot, some ebytes⟩ →
      inp.reqQFetch = .ok ⟨rslot, some rbytes⟩ →
      st.watermark < slot →
      remove_dex_account_padding ebytes = .ok einner →
      parse_event_queue einner = .ok (hdr, s0, s1) →
      remove_dex_account_padding rbytes = .ok rinner →
      parse_event_queue rinner = .ok (rhdr, r0, r1) →
      0 < s0.length + s1.length →
      ((consume_events_loop_iteration cfg st inp).1 = .gatedThrottle ↔
        (inp.now - st.last_cranked_at < cfg.max_wait_for_events_delay ∧
         s0.length + s1.length < cfg.max_q_length))) ∧
    (consume_events_loop_iteration cfgThrottleA stSample inpSample).1.isDispatched = true ∧
    (consume_events_loop_iteration cfgThrottleB stSample inpSample).1 = .gatedThrottle := by
  refine ⟨?_, by decide, by decide⟩
  intro cfg st inp slot rslot ebytes rbytes einner rinner hdr rhdr s0 s1 r0 r1
    hfetch hreq hstale hpad hparse hrpad hrparse hne
  rw [loop_reaches_dispatch cfg st inp slot rslot ebytes rbytes einner rinner
    hdr rhdr s0 s1 r0 r1 hfetch hreq hstale hpad hparse hrpad hrparse]
  exact dispatchStep_throttle_iff cfg st inp slot s0 s1 hne

/-- C5 witness: the throttle characterisation applied to the concrete S3
input with `max_q_length = 2` (throttled: 5 < 60 and 1 < 2). -/
theorem throttle_gate_exact_witness :
    inpSample.eventQFetch = .ok ⟨7, some sampleQueueOneEvent⟩ ∧
    ((consume_events_loop_iteration cfgThrottleB stSample inpSample).1 = .gatedThrottle ↔
      (inpSample.now - stSample.last_cranked_at < cfgThrottleB.max_wait_for_events_delay ∧
        (1 : Nat) + 0 < cfgThrottleB.max_q_length)) := by
  refine ⟨rfl, ?_⟩
  exact throttle_gate_exact.1 cfgThrottleB stSample inpSample 7 7
    sampleQueueOneEvent sampleQueueEmpty sampleInnerOneEvent sampleInnerEmpty
    ⟨0, 0, 1, 0⟩ ⟨0, 0, 0, 0⟩ [default] [] [] []
    (by decide) (by decide) (by decide) (by decide) (by decide) (by decide)
    (by decide) (by decide)

/-- C4: whenever the loop dispatches (which presupposes the worker pool
was constructed, so `num_workers` is positive), the number of worker
tasks submitted equals `min(num_workers, 2 * event_q_len /
events_per_worker + 1)`, and with `event_q_len > 0` and
`events_per_worker > 0` it satisfies `1 ≤ worker_count ≤ num_workers`;
in particular `num_workers = 8`, `events_per_worker = 5`,
`event_q_len = 12` yields `worker_count = 5`. -/
theorem worker_count_bounds :
    (∀ (cfg : LoopConfig) (st : LoopState) (inp : IterInput),
      threadPoolNew cfg.num_workers = .ok () →
      (consume_events_loop_iteration cfg st inp).1.isDispatched = true →
      (consume_events_loop_iteration cfg st inp).1.workerCountD =
        workerCount cfg.num_workers cfg.events_per_worker
          ((consume_events_loop_iteration cfg st inp).1.eventQLenD) ∧
      (0 < (consume_events_loop_iteration cfg st inp).1.eventQLenD →
        0 < cfg.events_per_worker →
        1 ≤ (consume_events_loop_iteration cfg st inp).1.workerCountD ∧
        (consume_events_loop_iteration cfg st inp).1.workerCountD ≤ cfg.num_workers)) ∧
    workerCount 8 5 12 = 5 := by
  refine ⟨?_, by decide⟩
  intro cfg st inp hpool hdisp
  have hnw : cfg.num_workers ≠ 0 := by
    intro h0
    simp [threadPoolNew, h0] at hpool
  obtain ⟨slot, s0, s1, heq⟩ := loop_dispatched_inv cfg st inp hdisp
  rw [heq] at hdisp ⊢
  rcases hd : dispatchStep cfg st inp slot s0 s1 with ⟨o, st2⟩
  rw [hd] at hdisp
  cases o with
  | dispatched info =>
      obtain ⟨hlen, hpos, hepw, hwc, _, _⟩ :=
        dispatchStep_dispatched_inv cfg st inp slot s0 s1 info st2 hd
      simp only [IterOutcome.workerCountD, IterOutcome.eventQLenD]
      refine ⟨hwc, ?_⟩
      intro _ _
      rw [hwc]
      unfold workerCount
      exact ⟨Nat.le_min.mpr ⟨by omega, Nat.le_add_left 1 _⟩, Nat.min_le_left _ _⟩
  | failed e => simp [IterOutcome.isDispatched] at hdisp
  | panicked => simp [IterOutcome.isDispatched] at hdisp
  | gatedStale => simp [IterOutcome.isDispatched] at hdisp
  | gatedEmpty => simp [IterOutcome.isDispatched] at hdisp
  | gatedThrottle => simp [IterOutcome.isDispatched] at hdisp

/-- C4 witness: the worker-count theorem applied to the concrete S3
dispatch (one worker, one event). -/
theorem worker_count_bounds_witness :
    threadPoolNew cfgThrottleA.num_workers = .ok () ∧
    (consume_events_loop_iteration cfgThrottleA stSample inpSample).1.isDispatched = true ∧
    ((consume_events_loop_iteration cfgThrottleA stSample inpSample).1.workerCountD =
      workerCount cfgThrottleA.num_workers cfgThrottleA.events_per_worker
        ((consume_events_loop_iteration cfgThrottleA stSample inpSample).1.eventQLenD) ∧
      (0 < (consume_events_loop_iteration cfgThrottleA stSample inpSample).1.eventQLenD →
        0 < cfgThrottleA.events_per_worker →
        1 ≤ (consume_events_loop_iteration cfgThrottleA stSample inpSample).1.workerCountD ∧
        (consume_events_loop_iteration cfgThrottleA stSample inpSample).1.workerCountD ≤
          cfgThrottleA.num_workers)) :=
  ⟨by decide, by decide,
   worker_count_bounds.1 cfgThrottleA stSample inpSample (by decide) (by decide)⟩

/-- C8 counterexample: `start` accepts `--events-per-worker 0` (the value
is forwarded into the loop configuration unvalidated, so the command does
not fail before the control loop), and the first dispatching iteration
evaluates `2 * event_q_len / events_per_worker` with a zero divisor and
panics. -/
theorem epw_zero_reaches_division_cex :
    (startLoopConfig optsEpwZero [2]).events_per_worker = 0 ∧
    consume_events_loop_iteration (startLoopConfig optsEpwZero [2]) stSample inpSample =
      (.panicked, stSample) :=
  ⟨rfl, by decide⟩

/-- C8 (amended): a configuration with `events_per_worker = 0` is NOT
rejected at startup: `start` forwards the value into the loop
configuration unchanged, and any iteration that reaches the dispatch arm
evaluates the worker-count division with a zero divisor and panics. -/
theorem epw_zero_not_rejected :
    (∀ (o : ConsumeEventsOpts) (event_q : List Nat),
      (startLoopConfig o event_q).events_per_worker = o.events_per_worker) ∧
    (∀ (cfg : LoopConfig) (st : LoopState) (inp : IterInput) (slot : Nat)
       (s0 s1 : List Event),
      cfg.events_per_worker = 0 →
      0 < s0.length + s1.length →
      ¬ (inp.now - st.last_cranked_at < cfg.max_wait_for_events_delay ∧
         s0.length + s1.length < cfg.max_q_length) →
      dispatchStep cfg st inp slot s0 s1 = (.panicked, st)) := by
  refine ⟨fun o event_q => rfl, ?_⟩
  intro cfg st inp slot s0 s1 hepw hne hth
  exact dispatchStep_epw_zero cfg st inp slot s0 s1 hne hth hepw

/-- C8 witness: the amended theorem applied to the concrete
`events_per_worker = 0` configuration and the S3 input. -/
theorem epw_zero_not_rejected_witness :
    (startLoopConfig optsEpwZero [2]).events_per_worker = 0 ∧
    dispatchStep (startLoopConfig optsEpwZero [2]) stSample inpSample 7 [default] [] =
      (.panicked, stSample) :=
  ⟨rfl, epw_zero_not_rejected.2 (startLoopConfig optsEpwZero [2]) stSample inpSample 7
    [default] [] rfl (by decide) (by decide)⟩

/-- C3 counterexample: with `num_accounts = 0` and a single event, the
user-account prefix of the dispatched account-meta list has length 1, so
it is not length-capped at `num_accounts` for every `num_accounts`. -/
theorem unique_owner_cap_cex :
    ¬ ((consumeEventsAccountMetas cfgThrottleA
          (collectOwners 0 (([evA] ++ ([] : List Event)).map Event.owner))).take
        (collectOwners 0 (([evA] ++ ([] : List Event)).map Event.owner)).length).length ≤ 0 := by
  decide

/-- C3 (amended): for every event list `seg0 ++ seg1` (with 64-bit owner
words) and every `num_accounts`, the user-account prefix of the
dispatched account-meta list contains each owner at most once, has length
at most `max num_accounts 1` — at most `num_accounts` whenever
`num_accounts ≥ 1`, one owner possibly remaining when
`num_accounts = 0` — and is a subset of the owners occurring in
`seg0 ++ seg1`. -/
theorem unique_owner_set :
    ∀ (cfg : LoopConfig) (na : Nat) (s0 s1 : List Event)
      (orders : List Owner) (metas : List AccountMeta),
      (∀ e ∈ s0 ++ s1, OwnerWF e.owner) →
      orders = collectOwners na ((s0 ++ s1).map Event.owner) →
      metas = consumeEventsAccountMetas cfg orders →
      (metas.take orders.length = orders.map mkUserMeta ∧
       (metas.take orders.length).Nodup ∧
       (metas.take orders.length).length ≤ max na 1 ∧
       (1 ≤ na → (metas.take orders.length).length ≤ na) ∧
       (∀ m ∈ metas.take orders.length, ∃ e ∈ s0 ++ s1, m = mkUserMeta e.owner)) := by
  intro cfg na s0 s1 orders metas hwf horders hmetas
  have hmem : ∀ o ∈ orders, ∃ e ∈ s0 ++ s1, e.owner = o := by
    intro o ho
    rw [horders] at ho
    have := collectOwners_mem ho
    rw [List.mem_map] at this
    exact this
  have hwfo : ∀ o ∈ orders, OwnerWF o := by
    intro o ho
    obtain ⟨e, he, heq⟩ := hmem o ho
    rw [← heq]
    exact hwf e he
  have htake : metas.take orders.length = orders.map mkUserMeta := by
    rw [hmetas]
    unfold consumeEventsAccountMetas
    exact List.take_left' (by simp)
  refine ⟨htake, ?_, ?_, ?_, ?_⟩
  · rw [htake]
    refine List.Nodup.map_on ?_ ?_
    · intro x hx y hy hxy
      unfold mkUserMeta at hxy
      rw [AccountMeta.mk.injEq] at hxy
      exact ownerPubkeyBytes_inj (hwfo x hx) (hwfo y hy) hxy.1
    · rw [horders]
      exact collectOwners_nodup na _
  · rw [htake, List.length_map, horders]
    exact collectOwners_length na _
  · intro hna
    rw [htake, List.length_map, horders]
    have := collectOwners_length na ((s0 ++ s1).map Event.owner)
    omega
  · rw [htake]
    intro m hm
    rw [List.mem_map] at hm
    obtain ⟨o, ho, rfl⟩ := hm
    obtain ⟨e, he, heq⟩ := hmem o ho
    exact ⟨e, he, by rw [heq]⟩

/-- C3 witness: the unique-owner theorem applied to two events with
distinct owners and `num_accounts = 2`. -/
theorem unique_owner_set_witness :
    (∀ e ∈ [evA, evB] ++ ([] : List Event), OwnerWF e.owner) ∧
    (((consumeEventsAccountMetas cfgThrottleA
          (collectOwners 2 (([evA, evB] ++ ([] : List Event)).map Event.owner))).take
        (collectOwners 2 (([evA, evB] ++ ([] : List Event)).map Event.owner)).length =
          (collectOwners 2 (([evA, evB] ++ ([] : List Event)).map Event.owner)).map mkUserMeta) ∧
      ((consumeEventsAccountMetas cfgThrottleA
          (collectOwners 2 (([evA, evB] ++ ([] : List Event)).map Event.owner))).take
        (collectOwners 2 (([evA, evB] ++ ([] : List Event)).map Event.owner)).length).Nodup ∧
      ((consumeEventsAccountMetas cfgThrottleA
          (collectOwners 2 (([evA, evB] ++ ([] : List Event)).map Event.owner))).take
        (collectOwners 2 (([evA, evB] ++ ([] : List Event)).map Event.owner)).length).length ≤ max 2 1 ∧
      (1 ≤ 2 → ((consumeEventsAccountMetas cfgThrottleA
          (collectOwners 2 (([evA, evB] ++ ([] : List Event)).map Event.owner))).take
        (collectOwners 2 (([evA, evB] ++ ([] : List Event)).map Event.owner)).length).length ≤ 2) ∧
      (∀ m ∈ (consumeEventsAccountMetas cfgThrottleA
          (collectOwners 2 (([evA, evB] ++ ([] : List Event)).map Event.owner))).take
        (collectOwners 2 (([evA, evB] ++ ([] : List Event)).map Event.owner)).length,
        ∃ e ∈ [evA, evB] ++ ([] : List Event), m = mkUserMeta e.owner)) :=
  ⟨by decide,
   unique_owner_set cfgThrottleA 2 [evA, evB] [] _ _ (by decide) rfl rfl⟩

/-- C10: for every non-empty event list, `num_accounts = 0` still leaves
exactly one user open-orders account (the owner of the first event) in
the account-meta list, because the collection loop inserts before
checking the size bound; the user-account prefix has length
`min 1 (number of distinct owners)`, not 0. -/
theorem num_accounts_zero_one_owner :
    ∀ (cfg : LoopConfig) (e : Event) (rest : List Event),
      collectOwners 0 ((e :: rest).map Event.owner) = [e.owner] ∧
      (consumeEventsAccountMetas cfg (collectOwners 0 ((e :: rest).map Event.owner))).take
        (collectOwners 0 ((e :: rest).map Event.owner)).length = [mkUserMeta e.owner] ∧
      (collectOwners 0 ((e :: rest).map Event.owner)).length =
        min 1 (((e :: rest).map Event.owner).dedup.length) := by
  intro cfg e rest
  have h1 : collectOwners 0 ((e :: rest).map Event.owner) = [e.owner] := by
    simp [collectOwners, collectOwnersGo, btreeInsert]
  refine ⟨h1, ?_, ?_⟩
  · rw [h1]
    rfl
  · rw [h1]
    have hmem : e.owner ∈ ((e :: rest).map Event.owner).dedup := by
      rw [List.mem_dedup]
      simp
    have hlen : 0 < ((e :: rest).map Event.owner).dedup.length :=
      List.length_pos.mpr (by
        intro hnil
        rw [hnil] at hmem
        simp at hmem)
    simp only [List.length_cons, List.length_nil]
    omega

/-- C9: the slot watermark is monotone non-decreasing under
`consume_events_wrapper` completions — each successful worker replaces it
with `max(slot, watermark)` and failures leave it unchanged — and after
any finite sequence of completions starting from 0 it equals the maximum
observed slot among the successful workers (0 if none). -/
theorem slot_watermark_monotone_max :
    (∀ (success : Bool) (slot w : Nat), w ≤ consume_events_wrapper_update success slot w) ∧
    (∀ cs : List (Bool × Nat), runWorkerCompletions 0 cs = maxSuccessSlot cs) := by
  constructor
  · intro success slot w
    unfold consume_events_wrapper_update
    split_ifs
    · exact Nat.le_max_right _ _
    · exact Nat.le_refl w
  · intro cs
    rw [runWorkerCompletions_foldl]
    rfl
